import Mathlib

/-!
Shallow embedding of the Mohr-circle computation of src/app.py.

The app builds two symbolic expressions with sympy (lines 41-43), turns
them into numeric functions with lambdify (lines 45-46), and separately
computes the circle center, radius, principal stresses and maximum shear
stress (lines 51-55) plus the view extent for the plot (lines 95-97).

We model the sympy expression trees with an explicit inductive type
`SymExpr` and an evaluator, so that the symbolic-derivation path of the
program is represented faithfully rather than collapsed into the closed
forms from the start.
-/

namespace MohrStress

/-- Symbolic expression trees as built by the sympy calls on lines 41-43
of src/app.py: four free variables, numeric literals, the four arithmetic
operations and the two trigonometric functions that occur there. -/
inductive SymExpr : Type where
  | vsx : SymExpr
  | vsy : SymExpr
  | vtxy : SymExpr
  | valpha : SymExpr
  | lit : ℝ → SymExpr
  | add : SymExpr → SymExpr → SymExpr
  | sub : SymExpr → SymExpr → SymExpr
  | mul : SymExpr → SymExpr → SymExpr
  | div : SymExpr → SymExpr → SymExpr
  | cos : SymExpr → SymExpr
  | sin : SymExpr → SymExpr

/-- Numeric evaluation of a symbolic expression at an assignment of the
four variables; this is what `sp.lambdify` produces on lines 45-46. -/
noncomputable def SymExpr.eval (sx sy txy alpha : ℝ) : SymExpr → ℝ
  | .vsx => sx
  | .vsy => sy
  | .vtxy => txy
  | .valpha => alpha
  | .lit x => x
  | .add a b => SymExpr.eval sx sy txy alpha a + SymExpr.eval sx sy txy alpha b
  | .sub a b => SymExpr.eval sx sy txy alpha a - SymExpr.eval sx sy txy alpha b
  | .mul a b => SymExpr.eval sx sy txy alpha a * SymExpr.eval sx sy txy alpha b
  | .div a b => SymExpr.eval sx sy txy alpha a / SymExpr.eval sx sy txy alpha b
  | .cos a => Real.cos (SymExpr.eval sx sy txy alpha a)
  | .sin a => Real.sin (SymExpr.eval sx sy txy alpha a)

/-- Line 42: eq_sigma = (sx + sy)/2 + (sx - sy)/2 * cos(2*alpha) - txy * sin(2*alpha),
following the Python parse: the subtraction of the txy term is outermost. -/
noncomputable def eq_sigma : SymExpr :=
  .sub
    (.add (.div (.add .vsx .vsy) (.lit 2))
          (.mul (.div (.sub .vsx .vsy) (.lit 2)) (.cos (.mul (.lit 2) .valpha))))
    (.mul .vtxy (.sin (.mul (.lit 2) .valpha)))

/-- Line 43: eq_tau = (sx - sy)/2 * sin(2*alpha) + txy * cos(2*alpha). -/
noncomputable def eq_tau : SymExpr :=
  .add
    (.mul (.div (.sub .vsx .vsy) (.lit 2)) (.sin (.mul (.lit 2) .valpha)))
    (.mul .vtxy (.cos (.mul (.lit 2) .valpha)))

/-- Line 45: calc_sigma = sp.lambdify((sx, sy, txy, alpha), eq_sigma). -/
noncomputable def calc_sigma (sx sy txy alpha : ℝ) : ℝ :=
  eq_sigma.eval sx sy txy alpha

/-- Line 46: calc_tau = sp.lambdify((sx, sy, txy, alpha), eq_tau). -/
noncomputable def calc_tau (sx sy txy alpha : ℝ) : ℝ :=
  eq_tau.eval sx sy txy alpha

/-- The transform operation of the spec: the pair (sigma_alpha, tau_alpha)
computed by the program (lines 48-49 evaluate it at the slider values). -/
noncomputable def transform (sx sy txy alpha : ℝ) : ℝ × ℝ :=
  (calc_sigma sx sy txy alpha, calc_tau sx sy txy alpha)

/-- Line 51: center_c = (val_sx + val_sy) / 2. -/
noncomputable def center_c (sx sy : ℝ) : ℝ := (sx + sy) / 2

/-- Line 52: radius_r = np.sqrt(((val_sx - val_sy)/2)**2 + val_txy**2). -/
noncomputable def radius_r (sx sy txy : ℝ) : ℝ :=
  Real.sqrt (((sx - sy) / 2) ^ 2 + txy ^ 2)

/-- Line 53: sigma_1 = center_c + radius_r. -/
noncomputable def sigma_1 (sx sy txy : ℝ) : ℝ :=
  center_c sx sy + radius_r sx sy txy

/-- Line 54: sigma_2 = center_c - radius_r (displayed as the third
principal stress sigma_3). -/
noncomputable def sigma_2 (sx sy txy : ℝ) : ℝ :=
  center_c sx sy - radius_r sx sy txy

/-- Line 55: tau_max = radius_r. -/
noncomputable def tau_max (sx sy txy : ℝ) : ℝ := radius_r sx sy txy

/-- Lines 95-97: max_val = max(abs(sigma_1), abs(sigma_2), radius_r) * 1.5,
replaced by 100 when it is exactly zero. -/
noncomputable def max_val (sx sy txy : ℝ) : ℝ :=
  if max (max |sigma_1 sx sy txy| |sigma_2 sx sy txy|) (radius_r sx sy txy) * 1.5 = 0
  then 100
  else max (max |sigma_1 sx sy txy| |sigma_2 sx sy txy|) (radius_r sx sy txy) * 1.5

/-- Modelled from the spec: the hard-coded closed form for the transformed
normal stress from section 4 of the spec, written directly from the
words of the spec for the refinement claim. -/
noncomputable def closedFormSigma (sx sy txy alpha : ℝ) : ℝ :=
  (sx + sy) / 2 + (sx - sy) / 2 * Real.cos (2 * alpha) - txy * Real.sin (2 * alpha)

/-- Modelled from the spec: the hard-coded closed form for the transformed
shear stress from section 4 of the spec. -/
noncomputable def closedFormTau (sx sy txy alpha : ℝ) : ℝ :=
  (sx - sy) / 2 * Real.sin (2 * alpha) + txy * Real.cos (2 * alpha)

/-- Unfolding lemma: evaluating the symbolic eq_sigma gives the closed form. -/
theorem calc_sigma_eval (sx sy txy alpha : ℝ) :
    calc_sigma sx sy txy alpha =
      (sx + sy) / 2 + (sx - sy) / 2 * Real.cos (2 * alpha)
        - txy * Real.sin (2 * alpha) := rfl

/-- Unfolding lemma: evaluating the symbolic eq_tau gives the closed form. -/
theorem calc_tau_eval (sx sy txy alpha : ℝ) :
    calc_tau sx sy txy alpha =
      (sx - sy) / 2 * Real.sin (2 * alpha) + txy * Real.cos (2 * alpha) := rfl

/-- Shared helper: the argument of the square root in radius_r is nonnegative. -/
theorem radius_arg_nonneg (sx sy txy : ℝ) :
    0 ≤ ((sx - sy) / 2) ^ 2 + txy ^ 2 := by positivity

/-- Shared helper: the radius is nonnegative. -/
theorem radius_r_nonneg (sx sy txy : ℝ) : 0 ≤ radius_r sx sy txy :=
  Real.sqrt_nonneg _

/-- Shared helper: the square of the radius recovers the sum of squares. -/
theorem radius_r_sq (sx sy txy : ℝ) :
    radius_r sx sy txy ^ 2 = ((sx - sy) / 2) ^ 2 + txy ^ 2 :=
  Real.sq_sqrt (radius_arg_nonneg sx sy txy)

/-- C1: for all real inputs with the angle in radians, the transform
operation returns the pair of closed-form transformed stresses
sigma_alpha = (sx+sy)/2 + (sx-sy)/2*cos(2a) - txy*sin(2a) and
tau_alpha = (sx-sy)/2*sin(2a) + txy*cos(2a). -/
theorem transform_formulas (sx sy txy alpha : ℝ) :
    transform sx sy txy alpha =
      ((sx + sy) / 2 + (sx - sy) / 2 * Real.cos (2 * alpha)
          - txy * Real.sin (2 * alpha),
        (sx - sy) / 2 * Real.sin (2 * alpha) + txy * Real.cos (2 * alpha)) := rfl

/-- C2: the principal operation returns c = (sx+sy)/2, the nonnegative
square root r = sqrt(((sx-sy)/2)^2 + txy^2) with r >= 0, sigma1 = c + r,
sigma3 = c - r, and tau_max = r >= 0. -/
theorem principal_contract (sx sy txy : ℝ) :
    center_c sx sy = (sx + sy) / 2 ∧
    radius_r sx sy txy = Real.sqrt (((sx - sy) / 2) ^ 2 + txy ^ 2) ∧
    0 ≤ radius_r sx sy txy ∧
    sigma_1 sx sy txy = center_c sx sy + radius_r sx sy txy ∧
    sigma_2 sx sy txy = center_c sx sy - radius_r sx sy txy ∧
    tau_max sx sy txy = radius_r sx sy txy ∧
    0 ≤ tau_max sx sy txy :=
  ⟨rfl, rfl, radius_r_nonneg sx sy txy, rfl, rfl, rfl, radius_r_nonneg sx sy txy⟩

/-- C5: trace invariant: the transformed normal stresses on two orthogonal
planes sum to sx + sy, for every angle. -/
theorem trace_invariant (sx sy txy alpha : ℝ) :
    calc_sigma sx sy txy alpha + calc_sigma sx sy txy (alpha + Real.pi / 2)
      = sx + sy := by
  rw [calc_sigma_eval, calc_sigma_eval]
  have h2 : 2 * (alpha + Real.pi / 2) = 2 * alpha + Real.pi := by ring
  rw [h2, Real.cos_add_pi, Real.sin_add_pi]
  ring

/-- C6: the transform is periodic with period pi in the angle. -/
theorem transform_periodic (sx sy txy alpha : ℝ) :
    transform sx sy txy alpha = transform sx sy txy (alpha + Real.pi) := by
  unfold transform
  rw [calc_sigma_eval, calc_sigma_eval, calc_tau_eval, calc_tau_eval]
  have h2 : 2 * (alpha + Real.pi) = 2 * alpha + 2 * Real.pi := by ring
  rw [h2, Real.cos_add_two_pi, Real.sin_add_two_pi]

/-- C7: at zero rotation the transform returns (sx, txy), and at a right
angle it returns (sy, -txy). -/
theorem transform_zero_and_right_angle (sx sy txy : ℝ) :
    transform sx sy txy 0 = (sx, txy) ∧
    transform sx sy txy (Real.pi / 2) = (sy, -txy) := by
  constructor
  · unfold transform
    rw [calc_sigma_eval, calc_tau_eval]
    norm_num
    ring
  · unfold transform
    rw [calc_sigma_eval, calc_tau_eval]
    have h2 : 2 * (Real.pi / 2) = Real.pi := by ring
    rw [h2, Real.cos_pi, Real.sin_pi]
    simp only [Prod.mk.injEq]
    constructor <;> ring

/-- C9: the symbolic-algebra path (building eq_sigma and eq_tau as
expression trees and evaluating them numerically) is extensionally equal
to hard-coding the two closed forms of the spec: the symbolic step adds
no behavior. -/
theorem symbolic_path_refines_closed_forms (sx sy txy alpha : ℝ) :
    calc_sigma sx sy txy alpha = closedFormSigma sx sy txy alpha ∧
    calc_tau sx sy txy alpha = closedFormTau sx sy txy alpha :=
  ⟨rfl, rfl⟩

/-- Shared helper: the radius vanishes exactly in the degenerate state. -/
theorem radius_r_eq_zero_iff (sx sy txy : ℝ) :
    radius_r sx sy txy = 0 ↔ sx = sy ∧ txy = 0 := by
  unfold radius_r
  rw [Real.sqrt_eq_zero (radius_arg_nonneg sx sy txy)]
  constructor
  · intro h
    have h1 : ((sx - sy) / 2) ^ 2 = 0 :=
      le_antisymm (by nlinarith [sq_nonneg txy]) (sq_nonneg _)
    have h2 : txy ^ 2 = 0 := by nlinarith [sq_nonneg ((sx - sy) / 2)]
    have h1' : (sx - sy) / 2 = 0 := sq_eq_zero_iff.mp h1
    exact ⟨by linarith, sq_eq_zero_iff.mp h2⟩
  · rintro ⟨h1, h2⟩
    rw [h1, h2]
    ring

/-- C4: sigma1 >= sigma3 for all inputs, with equality exactly in the
degenerate state sx = sy and txy = 0, which then yields the valid point
circle r = 0, sigma1 = sigma3 = c, tau_max = 0. -/
theorem principal_ordering (sx sy txy : ℝ) :
    sigma_2 sx sy txy ≤ sigma_1 sx sy txy ∧
    (sigma_1 sx sy txy = sigma_2 sx sy txy ↔ sx = sy ∧ txy = 0) ∧
    (sx = sy ∧ txy = 0 →
      radius_r sx sy txy = 0 ∧
      sigma_1 sx sy txy = center_c sx sy ∧
      sigma_2 sx sy txy = center_c sx sy ∧
      tau_max sx sy txy = 0) := by
  have hr := radius_r_nonneg sx sy txy
  have hzero := radius_r_eq_zero_iff sx sy txy
  refine ⟨?_, ?_, ?_⟩
  · unfold sigma_1 sigma_2
    linarith
  · unfold sigma_1 sigma_2
    constructor
    · intro h
      exact hzero.mp (by linarith)
    · intro h
      rw [hzero.mpr h]
      ring
  · intro h
    have h0 := hzero.mpr h
    refine ⟨h0, ?_, ?_, ?_⟩
    · unfold sigma_1
      rw [h0]
      ring
    · unfold sigma_2
      rw [h0]
      ring
    · unfold tau_max
      exact h0

/-- C8: the view extent handed to the rendering layer is
max(abs(sigma1), abs(sigma3), r) * 1.5, with the fixed fallback 100
substituted when that value is exactly zero, and the result is always
strictly positive. -/
theorem view_extent_contract (sx sy txy : ℝ) :
    max_val sx sy txy =
      (if max (max |sigma_1 sx sy txy| |sigma_2 sx sy txy|)
            (radius_r sx sy txy) * 1.5 = 0
       then 100
       else max (max |sigma_1 sx sy txy| |sigma_2 sx sy txy|)
            (radius_r sx sy txy) * 1.5) ∧
    0 < max_val sx sy txy := by
  refine ⟨rfl, ?_⟩
  unfold max_val
  split
  · norm_num
  · rename_i h
    have hm : (0:ℝ) ≤ max (max |sigma_1 sx sy txy| |sigma_2 sx sy txy|)
        (radius_r sx sy txy) :=
      le_trans (radius_r_nonneg sx sy txy) (le_max_right _ _)
    have hnn : (0:ℝ) ≤ max (max |sigma_1 sx sy txy| |sigma_2 sx sy txy|)
        (radius_r sx sy txy) * 1.5 := by
      apply mul_nonneg hm
      norm_num
    exact lt_of_le_of_ne hnn (Ne.symm h)

/-- C10: the current-state point lies exactly on the computed circle,
and consequently the transformed normal stress stays between the two
principal stresses and the transformed shear stress is bounded by
tau_max, for every orientation. -/
theorem current_point_on_circle (sx sy txy alpha : ℝ) :
    (calc_sigma sx sy txy alpha - center_c sx sy) ^ 2
        + calc_tau sx sy txy alpha ^ 2 = radius_r sx sy txy ^ 2 ∧
    sigma_2 sx sy txy ≤ calc_sigma sx sy txy alpha ∧
    calc_sigma sx sy txy alpha ≤ sigma_1 sx sy txy ∧
    |calc_tau sx sy txy alpha| ≤ tau_max sx sy txy := by
  have hr := radius_r_nonneg sx sy txy
  have hpy := Real.sin_sq_add_cos_sq (2 * alpha)
  have hcirc : (calc_sigma sx sy txy alpha - center_c sx sy) ^ 2
      + calc_tau sx sy txy alpha ^ 2 = radius_r sx sy txy ^ 2 := by
    rw [calc_sigma_eval, calc_tau_eval, radius_r_sq]
    unfold center_c
    linear_combination (((sx - sy) / 2) ^ 2 + txy ^ 2) * hpy
  have h1 : (calc_sigma sx sy txy alpha - center_c sx sy) ^ 2
      ≤ radius_r sx sy txy ^ 2 := by
    nlinarith [sq_nonneg (calc_tau sx sy txy alpha)]
  have habs1 : |calc_sigma sx sy txy alpha - center_c sx sy|
      ≤ radius_r sx sy txy := by
    have hs := Real.sqrt_le_sqrt h1
    rwa [Real.sqrt_sq_eq_abs, Real.sqrt_sq hr] at hs
  have h2 : calc_tau sx sy txy alpha ^ 2 ≤ radius_r sx sy txy ^ 2 := by
    nlinarith [sq_nonneg (calc_sigma sx sy txy alpha - center_c sx sy)]
  have habs2 : |calc_tau sx sy txy alpha| ≤ radius_r sx sy txy := by
    have hs := Real.sqrt_le_sqrt h2
    rwa [Real.sqrt_sq_eq_abs, Real.sqrt_sq hr] at hs
  obtain ⟨hlo, hhi⟩ := abs_le.mp habs1
  refine ⟨hcirc, ?_, ?_, habs2⟩
  · unfold sigma_2
    linarith
  · unfold sigma_1
    linarith

/-- C3 counterexample: at sx = 80, sy = -20, txy = 40 the radius is
sqrt(50^2 + 40^2) = sqrt(4100) > 64, so it does not round to 58.31:
even the weak rounding condition abs(r - 58.31) <= 0.005 fails. -/
theorem scenario_radius_not_58_31 :
    ¬ |radius_r 80 (-20) 40 - 58.31| ≤ 1 / 200 := by
  have hr : radius_r 80 (-20) 40 = Real.sqrt 4100 := by
    unfold radius_r
    norm_num
  have h64 : (64:ℝ) < radius_r 80 (-20) 40 := by
    rw [hr]
    exact (Real.lt_sqrt (by norm_num)).mpr (by norm_num)
  intro habs
  have hub := (abs_le.mp habs).2
  linarith

/-- C3 amended: at sx = 80, sy = -20, txy = 40, alpha = 0 the program
outputs sigma_alpha = 80.00 and tau_alpha = 40.00 exactly, c = 30.00
exactly, and r, sigma1, sigma3, tau_max round at two decimals to 64.03,
94.03, -34.03 and 64.03 (each lies strictly within 0.005 of that value). -/
theorem scenario_values :
    calc_sigma 80 (-20) 40 0 = 80 ∧
    calc_tau 80 (-20) 40 0 = 40 ∧
    center_c 80 (-20) = 30 ∧
    |radius_r 80 (-20) 40 - 64.03| < 1 / 200 ∧
    |sigma_1 80 (-20) 40 - 94.03| < 1 / 200 ∧
    |sigma_2 80 (-20) 40 - (-34.03)| < 1 / 200 ∧
    |tau_max 80 (-20) 40 - 64.03| < 1 / 200 := by
  have hr : radius_r 80 (-20) 40 = Real.sqrt 4100 := by
    unfold radius_r
    norm_num
  have hlow : (64.025:ℝ) < Real.sqrt 4100 :=
    (Real.lt_sqrt (by norm_num)).mpr (by norm_num)
  have hhigh : Real.sqrt 4100 < 64.035 :=
    (Real.sqrt_lt' (by norm_num)).mpr (by norm_num)
  have hc : center_c 80 (-20) = 30 := by
    unfold center_c
    norm_num
  refine ⟨?_, ?_, hc, ?_, ?_, ?_, ?_⟩
  · rw [calc_sigma_eval]
    norm_num
  · rw [calc_tau_eval]
    norm_num
  · rw [hr, abs_lt]
    constructor <;> linarith
  · unfold sigma_1
    rw [hr, hc, abs_lt]
    constructor <;> linarith
  · unfold sigma_2
    rw [hr, hc, abs_lt]
    constructor <;> linarith
  · unfold tau_max
    rw [hr, abs_lt]
    constructor <;> linarith

end MohrStress
